import Mathlib

/-!
Verification of the post-call recording → transcription → merge → delivery
pipeline of `control/app.py` (repository `livekit-henryk`).

The Python functions are shallowly embedded as executable Lean definitions:
Python strings become `List Char` (so that every string operation is a
structurally recursive, kernel-computable function), Python floats become `ℚ`
(the pipeline only adds, subtracts, divides by 1000, compares and rounds
time stamps, so exact rational arithmetic is the faithful idealisation),
Python dicts used as records become structures, and the network / file-system
effects of the pipeline are captured by explicit environment records
(`PipelineEnv`) and result traces (`RunTrace`).
-/

/-- Python strings are modelled as lists of characters. -/
abbrev Str := List Char

/-! ### Python string primitives used by `control/app.py` -/

/-- Function `splitFirst sep s` finds the first occurrence of `sep` in `s`, returning
`some (before, after)` with `s = before ++ sep ++ after`, or `none` when `sep`
does not occur.  This is the primitive underlying Python's `split`, `in` and
`replace` as used in the source. -/
def splitFirst (sep : Str) : Str → Option (Str × Str)
  | [] => if sep = [] then some ([], []) else none
  | c :: rest =>
    if sep.isPrefixOf (c :: rest) ∧ sep ≠ [] then
      some ([], (c :: rest).drop sep.length)
    else
      (splitFirst sep rest).map (fun p => (c :: p.1, p.2))

/-- Python's `sep in s` substring test. -/
def pyContains (s sep : Str) : Bool := (splitFirst sep s).isSome

/-- Python's `s.split(sep, 1)` followed by taking `parts[0]` and
`parts[1] if len(parts) > 1 else ""` — exactly the pattern used on lines
282-284 and 288-290 of `control/app.py`. -/
def pySplit1 (s sep : Str) : Str × Str :=
  match splitFirst sep s with
  | none => (s, [])
  | some p => p

/-- Python's `s.split(sep)[1]`: the text between the first occurrence of `sep`
and the following occurrence (or the end of the string).  Only evaluated by the
source when `sep in s` holds. -/
def pySplitIndex1 (s sep : Str) : Str :=
  match splitFirst sep s with
  | none => []
  | some p =>
    match splitFirst sep p.2 with
    | none => p.2
    | some q => q.1

/-- Python's `s.replace(old, new)` (all non-overlapping occurrences,
left to right). -/
def pyReplaceAll (sep rep : Str) : Str → Str
  | [] => []
  | c :: rest =>
    if h : sep.isPrefixOf (c :: rest) ∧ sep ≠ [] then
      rep ++ pyReplaceAll sep rep ((c :: rest).drop sep.length)
    else
      c :: pyReplaceAll sep rep rest
termination_by s => s.length
decreasing_by
· have hpos : 0 < sep.length := List.length_pos.mpr h.2
  simp only [List.length_drop, List.length_cons]
  omega
· simp

/-- Python's `s.strip()`: drop whitespace from both ends. -/
def pyStrip (s : Str) : Str :=
  ((s.dropWhile Char.isWhitespace).reverse.dropWhile Char.isWhitespace).reverse

/-- Python's `s.upper()` for the ASCII speaker labels of the source. -/
def pyUpper (s : Str) : Str := s.map Char.toUpper

/-! ### Data model -/

/-- Python's `round(x, 2)` on time stamps, used for the deduplication key on
line 196 of `control/app.py`: round to the nearest multiple of 1/100
(binary floats make exact decimal ties unrepresentable there, so the
tie-breaking convention is immaterial; `round` is round-half-up). -/
def round2 (q : ℚ) : ℚ := ((round (q * 100) : ℤ) : ℚ) / 100

/-- One transcript segment, as the dicts
`{"speaker": …, "t_start": …, "t_end": …, "text": …}` built by
`transcribe_with_assemblyai` (lines 146-162 of `control/app.py`). -/
structure Segment where
  speaker : Str
  t_start : ℚ
  t_end : ℚ
  text : Str
deriving DecidableEq, Repr

/-- One word-level timing entry of an AssemblyAI transcript: `word.start` and
`word.end` are in milliseconds (`end` is a Lean keyword, hence `w_end`). -/
structure Word where
  start : ℚ
  w_end : ℚ
  text : Str
deriving DecidableEq, Repr

/-- Outcome of one AssemblyAI transcription call: `failed` covers both
`transcript.status == error` and a raised exception (lines 136-138 and
174-176 of `control/app.py`), `ok words` a successful word-level transcript
(`transcript.words or []` is `ok []` when `words` is `None`). -/
inductive AaiOutcome where
  | failed
  | ok (words : List Word)
deriving DecidableEq, Repr

/-! ### Per-channel transcriber: word → segment grouping
(`transcribe_with_assemblyai`, lines 140-169 of `control/app.py`) -/

/-- One iteration of the `for word in transcript.words or []` loop
(lines 144-166): state is `(segments, current_segment)`. -/
def groupStep (speaker : Str) (st : List Segment × Option Segment) (w : Word) :
    List Segment × Option Segment :=
  match st.2 with
  | none => (st.1, some ⟨speaker, w.start / 1000, w.w_end / 1000, w.text⟩)
  | some cur =>
    if w.start / 1000 - cur.t_end > 1 then
      (st.1 ++ [cur], some ⟨speaker, w.start / 1000, w.w_end / 1000, w.text⟩)
    else
      (st.1, some { cur with
                      t_end := w.w_end / 1000,
                      text := cur.text ++ " ".toList ++ w.text })

/-- Lines 140-169 of `control/app.py`: fold the loop over the words and
append the trailing `current_segment` (the `if current_segment:` on
line 168; a segment built from a word is never `None`/falsy). -/
def wordsToSegments (speaker : Str) (ws : List Word) : List Segment :=
  match ws.foldl (groupStep speaker) ([], none) with
  | (segs, none) => segs
  | (segs, some cur) => segs ++ [cur]

/-- Function `transcribe_with_assemblyai` (lines 115-176 of `control/app.py`) as a
function of the configured API key and the outcome of the external
transcription call: an empty key returns `[]` (lines 126-128), a failed call
returns `[]`, and a successful call returns the grouped word list. -/
def transcribe_with_assemblyai (apiKey : Str) (outcome : AaiOutcome)
    (speaker : Str) : List Segment :=
  if apiKey = [] then []
  else
    match outcome with
    | .failed => []
    | .ok ws => wordsToSegments speaker ws

/-! ### Transcript merger
(`merge_transcript_segments`, lines 179-221 of `control/app.py`) -/

/-- The deduplication key of line 196:
`(round(seg["t_start"], 2), round(seg["t_end"], 2), seg["text"].strip())`. -/
def segKey (s : Segment) : ℚ × ℚ × Str := (round2 s.t_start, round2 s.t_end, pyStrip s.text)

/-- The duplicate-removal loop of lines 193-199: keep a segment iff its key
has not been seen before, accumulating seen keys. -/
def dedupKeep (seen : List (ℚ × ℚ × Str)) : List Segment → List Segment
  | [] => []
  | seg :: rest =>
    if segKey seg ∈ seen then dedupKeep seen rest
    else seg :: dedupKeep (segKey seg :: seen) rest

/-- Insert a segment into an already sorted list, after every element whose
`t_start` is `≤` its own. -/
def insertSeg (s : Segment) : List Segment → List Segment
  | [] => [s]
  | t :: rest => if t.t_start ≤ s.t_start then t :: insertSeg s rest else s :: t :: rest

/-- Line 202, `deduplicated.sort(key=lambda x: x["t_start"])`: a stable sort
by `t_start`.  Each element is inserted after all previously inserted elements
with `t_start ≤` its own, so elements with equal `t_start` keep their input
order — the defining property of Python's stable `list.sort`. -/
def sortByStart (l : List Segment) : List Segment :=
  l.foldl (fun acc s => insertSeg s acc) []

/-- The in-place merge of line 215-216: append the text (space-joined) and
extend `t_end`. -/
def mergeTwo (last seg : Segment) : Segment :=
  { last with text := last.text ++ " ".toList ++ seg.text, t_end := seg.t_end }

/-- The loop of lines 205-218 with `cur` playing the role of `merged[-1]`:
a segment is merged into the immediately preceding output segment when the
speakers agree and `seg["t_start"] - last["t_end"] < 1.0`, and appended
otherwise. -/
def mergeLoop (cur : Segment) : List Segment → List Segment
  | [] => [cur]
  | seg :: rest =>
    if cur.speaker = seg.speaker ∧ seg.t_start - cur.t_end < 1 then
      mergeLoop (mergeTwo cur seg) rest
    else
      cur :: mergeLoop seg rest

/-- Lines 204-218: the adjacent-same-speaker merge pass (empty input gives
`merged = []`). -/
def mergeAdjacent : List Segment → List Segment
  | [] => []
  | seg :: rest => mergeLoop seg rest

/-- Function `merge_transcript_segments` (lines 179-221 of `control/app.py`):
concatenate agent then human segments, remove duplicate keys keeping the
first occurrence, sort (stably) by `t_start`, then merge adjacent
same-speaker segments with gap `< 1.0` s. -/
def merge_transcript_segments (agent_segments human_segments : List Segment) :
    List Segment :=
  mergeAdjacent (sortByStart (dedupKeep [] (agent_segments ++ human_segments)))

/-! ### Recording locator
(the URL parsing inlined at lines 278-293 of `process_recording`) -/

/-- Lines 281-293 of `control/app.py`: `s3://bucket/key…` is split after the
scheme at the first `/`; a Supabase console URL containing the
`/storage/v1/s3/` marker is split likewise after the marker; anything else is
rejected (`logger.error("Unknown URL format …"); return`). -/
def parse_recording_location (file_url : Str) : Option (Str × Str) :=
  if "s3://".toList.isPrefixOf file_url then
    some (pySplit1 (file_url.drop 5) "/".toList)
  else if pyContains file_url ".supabase.co".toList
          && pyContains file_url "/storage/v1/s3/".toList then
    some (pySplit1 (pySplitIndex1 file_url "/storage/v1/s3/".toList) "/".toList)
  else
    none

/-- Lines 318-321 of `control/app.py`: the public playback URL substitutes
the `/storage/v1/object/public/` marker for `/storage/v1/s3/` in Supabase
URLs and leaves other URLs unchanged. -/
def recording_public_url (file_url : Str) : Str :=
  if pyContains file_url ".supabase.co".toList then
    pyReplaceAll "/storage/v1/s3/".toList "/storage/v1/object/public/".toList file_url
  else
    file_url

/-! ### Delivery notifier
(`send_webhook_to_n8n`, lines 224-254 of `control/app.py`) -/

/-- The per-room entry of `active_sessions` consulted by the notifier
(`session_data.get(…, "")` on lines 238-240; missing entries behave as an
empty record). -/
structure SessionData where
  phone_number : Str := []
  first_name : Str := []
  last_name : Str := []
deriving DecidableEq, Repr

/-- The JSON body posted to the n8n webhook (lines 236-244 of
`control/app.py`). -/
structure WebhookPayload where
  room_name : Str
  phone_number : Str
  first_name : Str
  last_name : Str
  recording_url : Str
  transcript : Str
  transcript_structured : List Segment
deriving DecidableEq, Repr

/-- Lines 231-234: `"\n".join(f"{seg['speaker'].upper()}: {seg['text']}" …)`. -/
def transcript_to_text (segs : List Segment) : Str :=
  List.intercalate "\n".toList
    (segs.map (fun s => pyUpper s.speaker ++ ": ".toList ++ s.text))

/-- Function `send_webhook_to_n8n` (lines 224-254 of `control/app.py`) as the payload
it delivers: `none` when `POST_CALL_WEBHOOK_URL` is unset (lines 226-228,
a logged no-op), otherwise the formatted payload.  The HTTP outcome is
logged and ignored by the source, so it does not appear in the model. -/
def send_webhook_to_n8n (webhookUrl room_name recording_url : Str)
    (transcript_structured : List Segment) (session : SessionData) :
    Option WebhookPayload :=
  if webhookUrl = [] then none
  else
    some ⟨room_name, session.phone_number, session.first_name,
          session.last_name, recording_url,
          transcript_to_text transcript_structured, transcript_structured⟩

/-! ### Pipeline run
(`process_recording`, lines 257-329 of `control/app.py`) -/

/-- The environment of one `process_recording` run: its two arguments, the
configuration read from module globals, the session-metadata entry, and the
outcomes of the three external effects (S3 download, the two ffmpeg
invocations, the two AssemblyAI calls). -/
structure PipelineEnv where
  file_url : Str
  room_name : Str
  assemblyai_api_key : Str
  post_call_webhook_url : Str
  session : SessionData
  fetch_ok : Bool
  split_ok : Bool
  agent_outcome : AaiOutcome
  human_outcome : AaiOutcome
deriving Repr

/-- What one `process_recording` run did: the parse result, whether the S3
download was attempted, which files were created inside the run's temporary
directory, the merged transcript, and the delivered payload (if any).
Every failure is caught at the run boundary (lines 328-329), so the run
always terminates with a trace. -/
structure RunTrace where
  parsed : Option (Str × Str)
  fetch_attempted : Bool
  temp_files : List Str
  transcript_structured : List Segment
  webhook_sent : Option WebhookPayload
deriving DecidableEq, Repr

/-- Function `process_recording` (lines 257-329 of `control/app.py`).  An unparseable
location returns before any S3 access (lines 291-293), leaving the fresh
temporary directory empty; a failed download (the `download_file` call
raising, caught at lines 328-329) ends the run; a failed ffmpeg split
(`split_dual_channel_audio` re-raising, lines 110-112) ends the run after the
recording was written; otherwise both channels are transcribed (agent channel
as speaker `"ai"`, human channel as `"human"`, lines 311-312), merged, and the
webhook payload is delivered with the public recording URL. -/
def process_recording (env : PipelineEnv) : RunTrace :=
  match parse_recording_location env.file_url with
  | none => ⟨none, false, [], [], none⟩
  | some bk =>
    if env.fetch_ok then
      if env.split_ok then
        let agent_segments :=
          transcribe_with_assemblyai env.assemblyai_api_key env.agent_outcome "ai".toList
        let human_segments :=
          transcribe_with_assemblyai env.assemblyai_api_key env.human_outcome "human".toList
        let transcript_structured :=
          merge_transcript_segments agent_segments human_segments
        ⟨some bk, true,
         ["recording.ogg".toList, "recording_agent.wav".toList,
          "recording_human.wav".toList],
         transcript_structured,
         send_webhook_to_n8n env.post_call_webhook_url env.room_name
           (recording_public_url env.file_url) transcript_structured env.session⟩
      else
        ⟨some bk, true, ["recording.ogg".toList], [], none⟩
    else
      ⟨some bk, true, [], [], none⟩

/-! ### Webhook endpoint and deduplication
(`livekit_webhook`, lines 569-621 of `control/app.py`) -/

/-- The fields of an inbound LiveKit webhook body read by the handler:
`body["event"]`, `egressInfo.egressId`, `egressInfo.roomName`, and the
`location` strings of `egressInfo.fileResults`. -/
structure EgressEvent where
  event : Str
  egressId : Str
  roomName : Str
  fileResults : List Str
deriving DecidableEq, Repr

/-- The JSON acknowledgment of the handler — every variant is a success
(HTTP 200) response. -/
inductive WebhookReply where
  | duplicateIgnored
  | noFiles
  | processingStarted (egressId : Str)
  | eventIgnored (event : Str)
deriving DecidableEq, Repr

/-- Function `livekit_webhook` (lines 569-621 of `control/app.py`) as a function of
the current `processed_egresses` set (modelled as the list of its elements)
and the inbound event.  It returns the new set, the acknowledgment, and the
`(file_url, room_name)` arguments of the `process_recording` background tasks
scheduled by this request, in order.  The handler inserts the egress id
(line 596) before reading `fileResults` (line 599) and before scheduling any
background task (line 610). -/
def livekit_webhook (processed : List Str) (ev : EgressEvent) :
    List Str × WebhookReply × List (Str × Str) :=
  if ev.event = "egress_ended".toList then
    if ev.egressId ∈ processed then
      (processed, .duplicateIgnored, [])
    else
      let processed' := ev.egressId :: processed
      if ev.fileResults = [] then
        (processed', .noFiles, [])
      else
        (processed', .processingStarted ev.egressId,
         (ev.fileResults.filter (fun u => decide (u ≠ []))).map
           (fun u => (u, ev.roomName)))
  else
    (processed, .eventIgnored ev.event, [])

/-! ### Specification-side formulations

For the two refinement claims the spec's own wording is formalised
separately, to be proved equal to the embedded source functions. -/

/-- Spec wording of deduplication: "remove duplicates — two segments being
identical iff their start and end times rounded to 2 decimal places and their
whitespace-trimmed text all match — keeping the first occurrence": keep the
head and drop every later segment with the same key. -/
def dedupSpec : List Segment → List Segment
  | [] => []
  | seg :: rest =>
    seg :: dedupSpec (rest.filter (fun t => decide (segKey t ≠ segKey seg)))
termination_by l => l.length
decreasing_by
  exact Nat.lt_succ_of_le (List.length_filter_le _ _)

/-- Spec wording of the second pass: "left to right, merge a segment into the
immediately preceding output segment iff they have the same speaker and
segment.start - previous.end < 1.0 second, concatenating text with a space
and setting previous.end to segment.end, and otherwise append it as a new
output segment". -/
def mergeStepSpec (out : List Segment) (seg : Segment) : List Segment :=
  match out.getLast? with
  | none => [seg]
  | some last =>
    if last.speaker = seg.speaker ∧ seg.t_start - last.t_end < 1 then
      out.dropLast ++ [mergeTwo last seg]
    else
      out ++ [seg]

/-- The merger as worded by the spec sentence of claim C2: concatenate
agent-then-human, deduplicate keeping first occurrences, sort by start time,
then fold the merge step left to right. -/
def merge_segments_spec (agent_segments human_segments : List Segment) :
    List Segment :=
  (sortByStart (dedupSpec (agent_segments ++ human_segments))).foldl
    mergeStepSpec []

/-- The segment grouping as worded by the spec sentence of claim C3, given a
current open segment: a new segment starts iff the word's start minus the
current segment's end is strictly greater than 1.0 s, otherwise the current
segment's end is extended to the word's end and its text appended
space-joined. -/
def groupSpecRec (speaker : Str) (cur : Segment) : List Word → List Segment
  | [] => [cur]
  | w :: ws =>
    if w.start / 1000 - cur.t_end > 1 then
      cur :: groupSpecRec speaker ⟨speaker, w.start / 1000, w.w_end / 1000, w.text⟩ ws
    else
      groupSpecRec speaker
        { cur with t_end := w.w_end / 1000, text := cur.text ++ " ".toList ++ w.text } ws

/-- The grouping step of the spec: consume the words in one pass, starting
the first segment at the first word. -/
def group_words_spec (speaker : Str) : List Word → List Segment
  | [] => []
  | w :: ws => groupSpecRec speaker ⟨speaker, w.start / 1000, w.w_end / 1000, w.text⟩ ws

/-! ### Lemmas about the word-grouping loop -/

/-- Close the loop state of `wordsToSegments`: append the open segment, if
any. -/
def closeGroup : List Segment × Option Segment → List Segment
  | (segs, none) => segs
  | (segs, some cur) => segs ++ [cur]

lemma wordsToSegments_eq_closeGroup (speaker : Str) (ws : List Word) :
    wordsToSegments speaker ws = closeGroup (ws.foldl (groupStep speaker) ([], none)) := by
  rcases h : ws.foldl (groupStep speaker) ([], none) with ⟨segs, _ | cur⟩ <;>
    simp [wordsToSegments, closeGroup, h]

lemma closeGroup_foldl_groupStep (speaker : Str) :
    ∀ (ws : List Word) (segs : List Segment) (cur : Segment),
      closeGroup (ws.foldl (groupStep speaker) (segs, some cur)) =
        segs ++ groupSpecRec speaker cur ws := by
  intro ws
  induction ws with
  | nil => intro segs cur; simp [closeGroup, groupSpecRec]
  | cons w ws ih =>
    intro segs cur
    by_cases hc : w.start / 1000 - cur.t_end > 1
    · have hstep : groupStep speaker (segs, some cur) w =
          (segs ++ [cur], some ⟨speaker, w.start / 1000, w.w_end / 1000, w.text⟩) := by
        simp [groupStep, hc]
      rw [List.foldl_cons, hstep, ih]
      simp only [groupSpecRec, if_pos hc]
      simp
    · have hstep : groupStep speaker (segs, some cur) w =
          (segs, some { cur with t_end := w.w_end / 1000,
                                 text := cur.text ++ " ".toList ++ w.text }) := by
        simp [groupStep, hc]
      rw [List.foldl_cons, hstep, ih]
      simp only [groupSpecRec, if_neg hc]

lemma groupSpecRec_head (speaker : Str) :
    ∀ (ws : List Word) (cur : Segment),
      ∃ h t, groupSpecRec speaker cur ws = h :: t ∧
        h.t_start = cur.t_start ∧ h.speaker = cur.speaker := by
  intro ws
  induction ws with
  | nil => intro cur; exact ⟨cur, [], rfl, rfl, rfl⟩
  | cons w ws ih =>
    intro cur
    by_cases hc : w.start / 1000 - cur.t_end > 1
    · refine ⟨cur, groupSpecRec speaker ⟨speaker, w.start / 1000, w.w_end / 1000, w.text⟩ ws,
          ?_, rfl, rfl⟩
      simp only [groupSpecRec, if_pos hc]
    · obtain ⟨h, t, heq, hts, hsp⟩ :=
        ih { cur with t_end := w.w_end / 1000,
                      text := cur.text ++ " ".toList ++ w.text }
      refine ⟨h, t, ?_, hts, hsp⟩
      simp only [groupSpecRec, if_neg hc]
      exact heq

/-! ### Lemmas about the adjacent-segment merge loop -/

lemma mergeLoop_head :
    ∀ (rest : List Segment) (cur : Segment),
      ∃ h t, mergeLoop cur rest = h :: t ∧
        h.t_start = cur.t_start ∧ h.speaker = cur.speaker := by
  intro rest
  induction rest with
  | nil => intro cur; exact ⟨cur, [], rfl, rfl, rfl⟩
  | cons seg rest ih =>
    intro cur
    by_cases hc : cur.speaker = seg.speaker ∧ seg.t_start - cur.t_end < 1
    · obtain ⟨h, t, heq, hts, hsp⟩ := ih (mergeTwo cur seg)
      refine ⟨h, t, ?_, hts, hsp⟩
      simp only [mergeLoop, if_pos hc]
      exact heq
    · refine ⟨cur, mergeLoop seg rest, ?_, rfl, rfl⟩
      simp only [mergeLoop, if_neg hc]

/-! ### The seen-set dedup loop equals keep-first-occurrence dedup -/

lemma filter_key_notMem_cons (rest : List Segment) (k : ℚ × ℚ × Str)
    (seen : List (ℚ × ℚ × Str)) :
    (rest.filter (fun t => decide (segKey t ∉ seen))).filter
        (fun t => decide (segKey t ≠ k)) =
      rest.filter (fun t => decide (segKey t ∉ k :: seen)) := by
  rw [List.filter_filter]
  apply List.filter_congr
  intro t _
  by_cases h1 : segKey t = k <;> by_cases h2 : segKey t ∈ seen <;>
    simp [h1, h2]

lemma dedupKeep_eq_dedupSpec_filter :
    ∀ (l : List Segment) (seen : List (ℚ × ℚ × Str)),
      dedupKeep seen l = dedupSpec (l.filter (fun s => decide (segKey s ∉ seen))) := by
  intro l
  induction l with
  | nil => intro seen; simp [dedupKeep, dedupSpec]
  | cons seg rest ih =>
    intro seen
    by_cases h : segKey seg ∈ seen
    · simp only [dedupKeep, if_pos h, List.filter_cons]
      have : (decide (segKey seg ∉ seen)) = false := by simp [h]
      rw [this]
      simp only [Bool.false_eq_true, if_false]
      exact ih seen
    · simp only [dedupKeep, if_neg h, List.filter_cons]
      have : (decide (segKey seg ∉ seen)) = true := by simp [h]
      rw [this]
      simp only [if_true]
      rw [dedupSpec, ih (segKey seg :: seen), filter_key_notMem_cons]

lemma dedupKeep_nil_eq_dedupSpec (l : List Segment) :
    dedupKeep [] l = dedupSpec l := by
  rw [dedupKeep_eq_dedupSpec_filter]
  congr 1
  simp

/-! ### The merge loop equals the left fold of the spec's merge step -/

lemma foldl_mergeStepSpec :
    ∀ (rest : List Segment) (acc : List Segment) (cur : Segment),
      rest.foldl mergeStepSpec (acc ++ [cur]) = acc ++ mergeLoop cur rest := by
  intro rest
  induction rest with
  | nil => intro acc cur; simp [mergeLoop]
  | cons seg rest ih =>
    intro acc cur
    rw [List.foldl_cons]
    by_cases hc : cur.speaker = seg.speaker ∧ seg.t_start - cur.t_end < 1
    · have hstep : mergeStepSpec (acc ++ [cur]) seg = acc ++ [mergeTwo cur seg] := by
        simp only [mergeStepSpec, List.getLast?_concat, if_pos hc, List.dropLast_concat]
      rw [hstep, ih]
      simp only [mergeLoop, if_pos hc]
    · have hstep : mergeStepSpec (acc ++ [cur]) seg = (acc ++ [cur]) ++ [seg] := by
        simp only [mergeStepSpec, List.getLast?_concat, if_neg hc]
      rw [hstep, ih, List.append_assoc]
      simp only [mergeLoop, if_neg hc, List.singleton_append]

lemma mergeAdjacent_eq_foldl (l : List Segment) :
    mergeAdjacent l = l.foldl mergeStepSpec [] := by
  cases l with
  | nil => rfl
  | cons seg rest =>
    have h0 : mergeStepSpec [] seg = [] ++ [seg] := by simp [mergeStepSpec]
    rw [mergeAdjacent, List.foldl_cons, h0, foldl_mergeStepSpec]
    simp

/-! ### Lemmas about the stable insertion sort -/

/-- The sort relation of line 202: comparison of `t_start`. -/
def leStart (x y : Segment) : Prop := x.t_start ≤ y.t_start

lemma mem_insertSeg (s x : Segment) :
    ∀ l : List Segment, x ∈ insertSeg s l ↔ x = s ∨ x ∈ l := by
  intro l
  induction l with
  | nil => simp [insertSeg]
  | cons t rest ih =>
    by_cases hc : t.t_start ≤ s.t_start
    · simp only [insertSeg, if_pos hc, List.mem_cons, ih]
      tauto
    · simp only [insertSeg, if_neg hc, List.mem_cons]

lemma pairwise_insertSeg (s : Segment) :
    ∀ l : List Segment, l.Pairwise leStart → (insertSeg s l).Pairwise leStart := by
  intro l
  induction l with
  | nil => intro _; simp [insertSeg]
  | cons t rest ih =>
    intro hp
    rw [List.pairwise_cons] at hp
    by_cases hc : t.t_start ≤ s.t_start
    · rw [insertSeg, if_pos hc, List.pairwise_cons]
      refine ⟨?_, ih hp.2⟩
      intro x hx
      rcases (mem_insertSeg s x rest).mp hx with hxs | hxr
      · subst hxs; exact hc
      · exact hp.1 x hxr
    · rw [insertSeg, if_neg hc, List.pairwise_cons]
      push_neg at hc
      refine ⟨?_, List.pairwise_cons.mpr hp⟩
      intro x hx
      rcases List.mem_cons.mp hx with hxt | hxr
      · subst hxt; exact le_of_lt hc
      · exact le_trans (le_of_lt hc) (hp.1 x hxr)

lemma pairwise_foldl_insertSeg :
    ∀ (l acc : List Segment), acc.Pairwise leStart →
      (l.foldl (fun acc s => insertSeg s acc) acc).Pairwise leStart := by
  intro l
  induction l with
  | nil => intro acc h; simpa using h
  | cons s rest ih =>
    intro acc h
    rw [List.foldl_cons]
    exact ih _ (pairwise_insertSeg s acc h)

/-- The output of the sort of line 202 is sorted by `t_start`. -/
lemma sorted_sortByStart (l : List Segment) : (sortByStart l).Pairwise leStart :=
  pairwise_foldl_insertSeg l [] List.Pairwise.nil

lemma insertSeg_of_forall_le (s : Segment) :
    ∀ l : List Segment, (∀ t ∈ l, leStart t s) → insertSeg s l = l ++ [s] := by
  intro l
  induction l with
  | nil => intro _; rfl
  | cons t rest ih =>
    intro h
    have hts : t.t_start ≤ s.t_start := h t (List.mem_cons_self t rest)
    rw [insertSeg, if_pos hts, ih]
    · simp
    · intro x hx; exact h x (List.mem_cons_of_mem t hx)

lemma foldl_insertSeg_of_sorted :
    ∀ (l acc : List Segment), (acc ++ l).Pairwise leStart →
      l.foldl (fun acc s => insertSeg s acc) acc = acc ++ l := by
  intro l
  induction l with
  | nil => intro acc _; simp
  | cons s rest ih =>
    intro acc h
    have hle : ∀ t ∈ acc, leStart t s := by
      intro t ht
      have := (List.pairwise_append.mp h).2.2
      exact this t ht s (List.mem_cons_self s rest)
    rw [List.foldl_cons, insertSeg_of_forall_le s acc hle, ih]
    · simp
    · rw [List.append_assoc, List.singleton_append]
      exact h

/-- A list already sorted by `t_start` is left unchanged by the sort — the
stable sort of line 202 does not reorder sorted input. -/
lemma sortByStart_of_sorted (l : List Segment) (h : l.Pairwise leStart) :
    sortByStart l = l := by
  have := foldl_insertSeg_of_sorted l [] (by simpa using h)
  simpa [sortByStart] using this

/-! ### Ordering and idempotence lemmas for the merge pass -/

/-- Two adjacent output segments that the loop of lines 205-218 would merge:
same speaker and gap `< 1.0` s. -/
def notMergeable (x y : Segment) : Prop :=
  ¬(x.speaker = y.speaker ∧ y.t_start - x.t_end < 1)

lemma chain'_leStart_mergeLoop :
    ∀ (rest : List Segment) (cur : Segment),
      List.Chain' leStart (cur :: rest) → List.Chain' leStart (mergeLoop cur rest) := by
  intro rest
  induction rest with
  | nil => intro cur _; simp [mergeLoop]
  | cons seg rest ih =>
    intro cur h
    rw [List.chain'_cons] at h
    obtain ⟨hcs, hrest⟩ := h
    by_cases hc : cur.speaker = seg.speaker ∧ seg.t_start - cur.t_end < 1
    · rw [mergeLoop, if_pos hc]
      apply ih
      rw [List.chain'_cons'] at hrest ⊢
      refine ⟨?_, hrest.2⟩
      intro y hy
      exact le_trans hcs (hrest.1 y hy)
    · rw [mergeLoop, if_neg hc]
      rw [List.chain'_cons']
      refine ⟨?_, ih seg hrest⟩
      intro y hy
      obtain ⟨hd, tl, heq, hts, _⟩ := mergeLoop_head rest seg
      rw [heq] at hy
      simp only [List.head?_cons, Option.mem_def, Option.some.injEq] at hy
      subst hy
      show cur.t_start ≤ hd.t_start
      rw [hts]
      exact hcs

lemma chain'_notMergeable_mergeLoop :
    ∀ (rest : List Segment) (cur : Segment),
      List.Chain' notMergeable (mergeLoop cur rest) := by
  intro rest
  induction rest with
  | nil => intro cur; simp [mergeLoop]
  | cons seg rest ih =>
    intro cur
    by_cases hc : cur.speaker = seg.speaker ∧ seg.t_start - cur.t_end < 1
    · rw [mergeLoop, if_pos hc]
      exact ih (mergeTwo cur seg)
    · rw [mergeLoop, if_neg hc]
      rw [List.chain'_cons']
      refine ⟨?_, ih seg⟩
      intro y hy
      obtain ⟨hd, tl, heq, hts, hsp⟩ := mergeLoop_head rest seg
      rw [heq] at hy
      simp only [List.head?_cons, Option.mem_def, Option.some.injEq] at hy
      subst hy
      intro hcontra
      exact hc ⟨hcontra.1.trans hsp, by rw [hts] at hcontra; exact hcontra.2⟩

lemma mergeLoop_of_chain'_notMergeable :
    ∀ (rest : List Segment) (cur : Segment),
      List.Chain' notMergeable (cur :: rest) → mergeLoop cur rest = cur :: rest := by
  intro rest
  induction rest with
  | nil => intro cur _; rfl
  | cons seg rest ih =>
    intro cur h
    rw [List.chain'_cons] at h
    rw [mergeLoop, if_neg h.1, ih seg h.2]

lemma dedupKeep_of_pairwise_ne :
    ∀ (l : List Segment) (seen : List (ℚ × ℚ × Str)),
      l.Pairwise (fun a b => segKey a ≠ segKey b) →
      (∀ s ∈ l, segKey s ∉ seen) → dedupKeep seen l = l := by
  intro l
  induction l with
  | nil => intro seen _ _; rfl
  | cons seg rest ih =>
    intro seen hp hseen
    rw [List.pairwise_cons] at hp
    have hmem : ∀ s ∈ rest, segKey s ∉ segKey seg :: seen := by
      intro s hs
      rw [List.mem_cons]
      push_neg
      exact ⟨fun h => hp.1 s hs h.symm, hseen s (List.mem_cons_of_mem seg hs)⟩
    rw [dedupKeep, if_neg (hseen seg (List.mem_cons_self seg rest)),
        ih (segKey seg :: seen) hp.2 hmem]

/-! ### Shared top-level facts about the merger output -/

lemma wordsToSegments_eq_group_words_spec (speaker : Str) (ws : List Word) :
    wordsToSegments speaker ws = group_words_spec speaker ws := by
  cases ws with
  | nil => rfl
  | cons w ws =>
    rw [wordsToSegments_eq_closeGroup, List.foldl_cons]
    have hstep : groupStep speaker ([], none) w =
        ([], some ⟨speaker, w.start / 1000, w.w_end / 1000, w.text⟩) := rfl
    rw [hstep, closeGroup_foldl_groupStep]
    simp [group_words_spec]

lemma merge_chain'_le (a h : List Segment) :
    List.Chain' leStart (merge_transcript_segments a h) := by
  have hs : (sortByStart (dedupKeep [] (a ++ h))).Pairwise leStart :=
    sorted_sortByStart _
  rw [merge_transcript_segments]
  rcases hsl : sortByStart (dedupKeep [] (a ++ h)) with _ | ⟨seg, rest⟩
  · simp [mergeAdjacent]
  · rw [hsl] at hs
    rw [mergeAdjacent]
    exact chain'_leStart_mergeLoop rest seg hs.chain'

lemma merge_chain'_notMergeable (a h : List Segment) :
    List.Chain' notMergeable (merge_transcript_segments a h) := by
  rw [merge_transcript_segments]
  rcases sortByStart (dedupKeep [] (a ++ h)) with _ | ⟨seg, rest⟩
  · simp [mergeAdjacent]
  · rw [mergeAdjacent]
    exact chain'_notMergeable_mergeLoop rest seg

/-! ### Claim theorems -/

/-- C2: for every pair of segment lists (agent, human), the merger
concatenates agent-then-human, removes duplicates (two segments identical iff
their start and end times rounded to 2 decimal places and their
whitespace-trimmed text all match) keeping the first occurrence in
concatenation order before sorting, then sorts by start time, then left to
right merges a segment into the immediately preceding output segment iff same
speaker and `segment.start - previous.end < 1.0` (concatenating text with a
space and setting `previous.end` to `segment.end`), otherwise appends it.
The embedded source function equals the algorithm worded by the spec. -/
theorem merge_transcript_segments_follows_spec
    (agent_segments human_segments : List Segment) :
    merge_transcript_segments agent_segments human_segments =
      merge_segments_spec agent_segments human_segments := by
  rw [merge_transcript_segments, merge_segments_spec, dedupKeep_nil_eq_dedupSpec,
      mergeAdjacent_eq_foldl]

/-- C3: the segment-grouping step consumes the words in a single pass,
starts the first segment at the first word (the head segment's start time is
the first word's start, in seconds), and for each subsequent word starts a
new segment iff `word.start - current_segment.end > 1.0` s, otherwise extends
the current segment — i.e. the embedded source loop equals the one-pass
recursion worded by the spec, and being a function of the word list it is
deterministic: identical inputs give identical segment boundaries. -/
theorem wordsToSegments_follows_spec (speaker : Str) :
    (∀ ws : List Word, wordsToSegments speaker ws = group_words_spec speaker ws) ∧
    (∀ (w : Word) (ws : List Word),
      (wordsToSegments speaker (w :: ws)).head?.map Segment.t_start =
        some (w.start / 1000)) := by
  refine ⟨wordsToSegments_eq_group_words_spec speaker, ?_⟩
  intro w ws
  rw [wordsToSegments_eq_group_words_spec]
  obtain ⟨hd, tl, heq, hts, _⟩ :=
    groupSpecRec_head speaker ws ⟨speaker, w.start / 1000, w.w_end / 1000, w.text⟩
  rw [group_words_spec, heq]
  simp [hts]

/-- C4: for every pair of input segment lists, the sequence returned by the
merger is non-decreasing in segment start time: every adjacent pair `(a, b)`
of the output satisfies `a.t_start ≤ b.t_start`. -/
theorem merge_transcript_segments_sorted (a h : List Segment) :
    List.Chain' (fun x y => x.t_start ≤ y.t_start) (merge_transcript_segments a h) :=
  merge_chain'_le a h

/-- C5 (amended): no two adjacent same-speaker segments with gap `< 1.0` s
remain in merged output; and whenever no two segments of the merged output
share the same deduplication key (start and end rounded to 2 decimals plus
trimmed text), re-running the merge stage on the output returns it unchanged.
(The unconditional idempotence stated by the claim is refuted by
`merge_transcript_segments_not_idempotent`: the merge pass can manufacture
two output segments with equal keys, which a re-run then deduplicates.) -/
theorem merge_transcript_segments_idempotent_of_key_distinct
    (a h : List Segment) :
    List.Chain' notMergeable (merge_transcript_segments a h) ∧
    ((merge_transcript_segments a h).Pairwise (fun x y => segKey x ≠ segKey y) →
      merge_transcript_segments (merge_transcript_segments a h) [] =
        merge_transcript_segments a h) := by
  refine ⟨merge_chain'_notMergeable a h, ?_⟩
  intro hkeys
  have hchain := merge_chain'_le a h
  haveI : IsTrans Segment leStart := ⟨fun _ _ _ hab hbc => le_trans hab hbc⟩
  have hsorted : (merge_transcript_segments a h).Pairwise leStart :=
    List.chain'_iff_pairwise.mp hchain
  have hnm := merge_chain'_notMergeable a h
  conv_lhs => rw [merge_transcript_segments]
  rw [List.append_nil,
      dedupKeep_of_pairwise_ne (merge_transcript_segments a h) [] hkeys
        (by intro s _; exact List.not_mem_nil (segKey s)),
      sortByStart_of_sorted _ hsorted]
  rcases hout : merge_transcript_segments a h with _ | ⟨seg, rest⟩
  · rfl
  · rw [hout] at hnm
    rw [mergeAdjacent]
    exact mergeLoop_of_chain'_notMergeable rest seg hnm

/-- C1 (amended): when two recording-finished notifications carrying a fresh
event identifier arrive in sequence, the first inserts the identifier into
the processed set, the second is discarded with a success response and
schedules nothing, and the number of pipeline runs scheduled equals the
number of non-empty file locations carried by the first notification — in
particular exactly one when it carries exactly one non-empty location.
(The unconditional "exactly one" of the claim is refuted by
`livekit_webhook_zero_files_counterexample`.) -/
theorem livekit_webhook_dedup (processed : List Str) (ev : EgressEvent)
    (hfresh : ev.egressId ∉ processed)
    (hev : ev.event = "egress_ended".toList) :
    ev.egressId ∈ (livekit_webhook processed ev).1 ∧
    (livekit_webhook (livekit_webhook processed ev).1 ev).2.1 =
      WebhookReply.duplicateIgnored ∧
    (livekit_webhook (livekit_webhook processed ev).1 ev).2.2 = [] ∧
    (livekit_webhook processed ev).2.2.length =
      (ev.fileResults.filter (fun u => decide (u ≠ []))).length := by
  by_cases hf : ev.fileResults = []
  · simp [livekit_webhook, hev, hfresh, hf]
  · simp [livekit_webhook, hev, hfresh, hf]

/-- C10: the handler inserts the egress id into the processed set before it
inspects the notification's file results, so after any `egress_ended`
notification with a fresh id is accepted — including one carrying zero file
results, which schedules nothing — the id is in the set, membership is
preserved by every later request, and every later `egress_ended` notification
with the same id is discarded as a duplicate, scheduling no pipeline run,
even if it does carry file results. -/
theorem livekit_webhook_zero_files_poisons (processed : List Str)
    (ev1 : EgressEvent)
    (hfresh : ev1.egressId ∉ processed)
    (hev : ev1.event = "egress_ended".toList)
    (hnofiles : ev1.fileResults = []) :
    ev1.egressId ∈ (livekit_webhook processed ev1).1 ∧
    (livekit_webhook processed ev1).2.2 = [] ∧
    (∀ (p : List Str) (ev : EgressEvent), ev1.egressId ∈ p →
      ev1.egressId ∈ (livekit_webhook p ev).1) ∧
    (∀ (p : List Str) (ev : EgressEvent), ev1.egressId ∈ p →
      ev.event = "egress_ended".toList → ev.egressId = ev1.egressId →
      livekit_webhook p ev = (p, WebhookReply.duplicateIgnored, [])) := by
  refine ⟨?_, ?_, ?_, ?_⟩
  · simp [livekit_webhook, hev, hfresh, hnofiles]
  · simp [livekit_webhook, hev, hfresh, hnofiles]
  · intro p ev hp
    rw [livekit_webhook]
    split_ifs <;> simp [hp]
  · intro p ev hp h1 h2
    simp [livekit_webhook, h1, h2, hp]

/-- C7 (amended): the Locator either yields a reference — bucket is the first
path segment after the scheme or console marker, key the remainder, possibly
empty — or fails explicitly, and it fails exactly on the strings matching
neither the `s3://` shape nor the Supabase-console shape; the direct-path
input `s3://mybucket/calls/room1/rec.ogg` yields bucket `mybucket` and key
`calls/room1/rec.ogg`.  (The claim's guarantee that bucket and key are both
non-empty on success is refuted by
`parse_recording_location_empty_key_counterexample`.) -/
theorem parse_recording_location_spec :
    parse_recording_location "s3://mybucket/calls/room1/rec.ogg".toList =
      some ("mybucket".toList, "calls/room1/rec.ogg".toList) ∧
    (∀ s : Str, parse_recording_location s = none ↔
      ¬("s3://".toList.isPrefixOf s = true ∨
        (pyContains s ".supabase.co".toList = true ∧
         pyContains s "/storage/v1/s3/".toList = true))) := by
  constructor
  · decide
  · intro s
    rw [parse_recording_location]
    split_ifs with h1 h2 <;> simp_all [Bool.and_eq_true]

/-- C7 counterexample: on the direct-path input `s3://mybucket` the Locator
succeeds with an empty key instead of failing, refuting "bucket and key are
both non-empty after parsing, or parsing fails explicitly". -/
theorem parse_recording_location_empty_key_counterexample :
    parse_recording_location "s3://mybucket".toList =
      some ("mybucket".toList, ([] : Str)) := by
  decide

/-- C9: for every location string the Locator does not recognize, the
pipeline run returns before the object fetch is attempted, creates no
temporary files, and delivers nothing. -/
theorem unparseable_location_aborts_before_fetch (env : PipelineEnv)
    (h : parse_recording_location env.file_url = none) :
    (process_recording env).fetch_attempted = false ∧
    (process_recording env).temp_files = [] ∧
    (process_recording env).webhook_sent = none := by
  simp [process_recording, h]

/-- C8: with no transcription credential configured the per-channel
transcriber returns an empty segment list for every input (not an error);
in that configuration, on a run whose location parses and whose download and
split succeed, the merged transcript is empty and the delivery payload is
still sent — with empty transcript text and empty structured segment list —
rather than being skipped. -/
theorem missing_credential_degrades_silently (env : PipelineEnv)
    (hkey : env.assemblyai_api_key = [])
    (hparse : (parse_recording_location env.file_url).isSome = true)
    (hfetch : env.fetch_ok = true) (hsplit : env.split_ok = true)
    (hurl : env.post_call_webhook_url ≠ []) :
    (∀ (o : AaiOutcome) (speaker : Str),
        transcribe_with_assemblyai env.assemblyai_api_key o speaker = []) ∧
    (process_recording env).transcript_structured = [] ∧
    (process_recording env).webhook_sent =
      some ⟨env.room_name, env.session.phone_number, env.session.first_name,
            env.session.last_name, recording_public_url env.file_url, [], []⟩ := by
  have htr : ∀ (o : AaiOutcome) (speaker : Str),
      transcribe_with_assemblyai env.assemblyai_api_key o speaker = [] := by
    intro o speaker
    rw [hkey]
    rfl
  obtain ⟨bk, hbk⟩ := Option.isSome_iff_exists.mp hparse
  have hmerge : merge_transcript_segments [] [] = [] := rfl
  have htext : transcript_to_text [] = [] := rfl
  refine ⟨htr, ?_, ?_⟩ <;>
    simp [process_recording, hbk, hfetch, hsplit, htr, hmerge,
          send_webhook_to_n8n, hurl, htext]

/-- C1 counterexample: an `egress_ended` notification with a fresh id but an
empty `fileResults` list, delivered twice: the first is accepted (the id is
inserted and the reply is the success `no_files`), the second is discarded as
a duplicate, and zero — not exactly one — pipeline runs are scheduled. -/
theorem livekit_webhook_zero_files_counterexample :
    livekit_webhook []
        ⟨"egress_ended".toList, "EG_1".toList, "room_a".toList, []⟩ =
      (["EG_1".toList], WebhookReply.noFiles, []) ∧
    livekit_webhook ["EG_1".toList]
        ⟨"egress_ended".toList, "EG_1".toList, "room_a".toList, []⟩ =
      (["EG_1".toList], WebhookReply.duplicateIgnored, []) := by
  constructor <;> decide

/-- A concrete first-delivery event for the C1 witness: fresh id, one
non-empty file location. -/
def evDedupWitness : EgressEvent :=
  ⟨"egress_ended".toList, "EG_2".toList, "room_b".toList, ["s3://b/k.ogg".toList]⟩

/-- C1 witness: the dedup theorem instantiated at a concrete fresh event
carrying exactly one non-empty file location. -/
theorem livekit_webhook_dedup_witness :
    evDedupWitness.egressId ∉ ([] : List Str) ∧
    evDedupWitness.event = "egress_ended".toList ∧
    (evDedupWitness.egressId ∈ (livekit_webhook [] evDedupWitness).1 ∧
     (livekit_webhook (livekit_webhook [] evDedupWitness).1 evDedupWitness).2.1 =
       WebhookReply.duplicateIgnored ∧
     (livekit_webhook (livekit_webhook [] evDedupWitness).1 evDedupWitness).2.2 = [] ∧
     (livekit_webhook [] evDedupWitness).2.2.length =
       (evDedupWitness.fileResults.filter (fun u => decide (u ≠ []))).length) :=
  ⟨by decide, rfl, livekit_webhook_dedup [] evDedupWitness (by decide) rfl⟩

/-- A concrete zero-file event for the C10 witness. -/
def evZeroFilesWitness : EgressEvent :=
  ⟨"egress_ended".toList, "EG_3".toList, "room_c".toList, []⟩

/-- C10 witness: the insert-before-inspection theorem instantiated at a
concrete zero-file event. -/
theorem livekit_webhook_zero_files_poisons_witness :
    evZeroFilesWitness.egressId ∉ ([] : List Str) ∧
    evZeroFilesWitness.event = "egress_ended".toList ∧
    evZeroFilesWitness.fileResults = [] ∧
    (evZeroFilesWitness.egressId ∈ (livekit_webhook [] evZeroFilesWitness).1 ∧
     (livekit_webhook [] evZeroFilesWitness).2.2 = [] ∧
     (∀ (p : List Str) (ev : EgressEvent), evZeroFilesWitness.egressId ∈ p →
       evZeroFilesWitness.egressId ∈ (livekit_webhook p ev).1) ∧
     (∀ (p : List Str) (ev : EgressEvent), evZeroFilesWitness.egressId ∈ p →
       ev.event = "egress_ended".toList → ev.egressId = evZeroFilesWitness.egressId →
       livekit_webhook p ev = (p, WebhookReply.duplicateIgnored, []))) :=
  ⟨by decide, rfl, rfl,
   livekit_webhook_zero_files_poisons [] evZeroFilesWitness (by decide) rfl rfl⟩

/-- A concrete run environment with no transcription credential for the C8
witness. -/
def envNoCredential : PipelineEnv :=
  ⟨"s3://bkt/rec.ogg".toList, "room_f".toList, [], "http://n8n.example/hook".toList,
   ⟨[], [], []⟩, true, true, .failed, .failed⟩

/-- C8 witness: the silent-degradation theorem instantiated at a concrete
environment with an empty AssemblyAI key and a configured delivery URL. -/
theorem missing_credential_degrades_silently_witness :
    envNoCredential.assemblyai_api_key = [] ∧
    (parse_recording_location envNoCredential.file_url).isSome = true ∧
    envNoCredential.fetch_ok = true ∧
    envNoCredential.split_ok = true ∧
    envNoCredential.post_call_webhook_url ≠ [] ∧
    ((∀ (o : AaiOutcome) (speaker : Str),
        transcribe_with_assemblyai envNoCredential.assemblyai_api_key o speaker = []) ∧
     (process_recording envNoCredential).transcript_structured = [] ∧
     (process_recording envNoCredential).webhook_sent =
       some ⟨envNoCredential.room_name, envNoCredential.session.phone_number,
             envNoCredential.session.first_name, envNoCredential.session.last_name,
             recording_public_url envNoCredential.file_url, [], []⟩) :=
  ⟨rfl, by decide, rfl, rfl, by decide,
   missing_credential_degrades_silently envNoCredential rfl (by decide) rfl rfl
     (by decide)⟩

/-- A concrete run environment with an unparseable location for the C9
witness. -/
def envBadLocation : PipelineEnv :=
  ⟨"http://example.com/rec.ogg".toList, "room_e".toList, [], [],
   ⟨[], [], []⟩, true, true, .failed, .failed⟩

/-- C9 witness: the abort-before-fetch theorem instantiated at a concrete
unrecognized location string. -/
theorem unparseable_location_aborts_before_fetch_witness :
    parse_recording_location envBadLocation.file_url = none ∧
    ((process_recording envBadLocation).fetch_attempted = false ∧
     (process_recording envBadLocation).temp_files = [] ∧
     (process_recording envBadLocation).webhook_sent = none) :=
  ⟨by decide, unparseable_location_aborts_before_fetch envBadLocation (by decide)⟩

/-- C6: on agent-channel words `("Hi", 0-300 ms)`, `("there", 400-700 ms)`
and human-channel word `("Hello", 500-900 ms)` — i.e. 0.0-0.3 s, 0.4-0.7 s
and 0.5-0.9 s — the grouping-then-merge pipeline yields exactly
`[{ai, 0.0, 0.7, "Hi there"}, {human, 0.5, 0.9, "Hello"}]`, the agent
segment first (the source labels the agent channel `"ai"` and the human
channel `"human"`, the spec's AGENT/HUMAN). -/
theorem full_pipeline_scenario :
    merge_transcript_segments
      (wordsToSegments "ai".toList
        [⟨0, 300, "Hi".toList⟩, ⟨400, 700, "there".toList⟩])
      (wordsToSegments "human".toList [⟨500, 900, "Hello".toList⟩]) =
      [⟨"ai".toList, 0, 0.7, "Hi there".toList⟩,
       ⟨"human".toList, 0.5, 0.9, "Hello".toList⟩] := by
  norm_num [wordsToSegments, groupStep, merge_transcript_segments, dedupKeep, segKey,
    round2, pyStrip, sortByStart, insertSeg, mergeAdjacent, mergeLoop, mergeTwo,
    List.foldl, round_eq]
  decide

/-- C5 counterexample: the merge stage is not idempotent.  On agent segments
`(0.014, 1, "a")`, `(1.5, 5, "b")` and human segment `(0.006, 5, "a b")` the
output is `[{human, 0.006, 5, "a b"}, {ai, 0.014, 5, "a b"}]` — the merged
agent segment acquires the same dedup key (start and end rounded to two
decimals, trimmed text) as the human segment — so re-running the merge stage
deduplicates the output down to the human segment alone. -/
theorem merge_transcript_segments_not_idempotent :
    merge_transcript_segments
        (merge_transcript_segments
          [⟨"ai".toList, 0.014, 1, "a".toList⟩, ⟨"ai".toList, 1.5, 5, "b".toList⟩]
          [⟨"human".toList, 0.006, 5, "a b".toList⟩]) [] ≠
      merge_transcript_segments
          [⟨"ai".toList, 0.014, 1, "a".toList⟩, ⟨"ai".toList, 1.5, 5, "b".toList⟩]
          [⟨"human".toList, 0.006, 5, "a b".toList⟩] := by
  have h1 : merge_transcript_segments
      [⟨"ai".toList, 0.014, 1, "a".toList⟩, ⟨"ai".toList, 1.5, 5, "b".toList⟩]
      [⟨"human".toList, 0.006, 5, "a b".toList⟩] =
      [⟨"human".toList, 0.006, 5, "a b".toList⟩,
       ⟨"ai".toList, 0.014, 5, "a b".toList⟩] := by
    norm_num [merge_transcript_segments, dedupKeep, segKey, round2, pyStrip,
      sortByStart, insertSeg, mergeAdjacent, mergeLoop, mergeTwo, List.foldl, round_eq]
    decide
  rw [h1]
  norm_num [merge_transcript_segments, dedupKeep, segKey, round2, pyStrip,
    sortByStart, insertSeg, mergeAdjacent, mergeLoop, mergeTwo, List.foldl, round_eq]

/-- C5 witness: the key-distinct idempotence theorem instantiated at a
concrete single-segment input, whose merged output has pairwise distinct
dedup keys. -/
theorem merge_transcript_segments_idempotent_witness :
    (merge_transcript_segments [⟨"ai".toList, 3, 7, "hey".toList⟩] []).Pairwise
        (fun x y => segKey x ≠ segKey y) ∧
    merge_transcript_segments
        (merge_transcript_segments [⟨"ai".toList, 3, 7, "hey".toList⟩] []) [] =
      merge_transcript_segments [⟨"ai".toList, 3, 7, "hey".toList⟩] [] :=
  ⟨by decide,
   (merge_transcript_segments_idempotent_of_key_distinct
      [⟨"ai".toList, 3, 7, "hey".toList⟩] []).2 (by decide)⟩
